import Mathlib

/-!
Shallow embedding of the `imagecrop` repository (Go) for specification checking.

Covered source:
* `cropper/cropper.go` — brightness-uniformity cropping engine:
  `calculateBrightness`, `calculateRegionBrightness`, `isUniform`,
  `findUniformCrop`, and the pure decision core of `CropImage`.
* the corner-crop variant's `CropImage` (simple fixed-percentage corner crop).

Modelling conventions:
* Go `int` is `ℤ`; Go integer division (`/`, truncation toward zero) is `Int.tdiv`.
* `image.Rectangle` is a four-field structure; Go's `image.Rect` constructor
  normalizes by swapping coordinates so that min ≤ max, modelled by `mkRect`.
* `float64` arithmetic on brightness values is modelled by exact `ℚ` arithmetic.
  The only places where IEEE-754 special values can arise in the source are the
  two comparisons that divide by `centerBrightness` (which can be exactly 0 when
  the reference region is pure black, making the quotient NaN or +Inf); these two
  comparison sites are embedded by `goRelGT` and `goRelLE`, which case-split on
  the zero divisor exactly as IEEE comparison semantics dictate for a
  nonnegative numerator and a finite tolerance.
* `image.Image` is a total function from coordinates to a pixel color; a color
  carries the three 16-bit channel values returned by Go's `Color.RGBA()`.
* The Go `map[string]float64` holding per-edge deviations is embedded as an
  association list built in the source's insertion order, together with an
  explicit iteration-order parameter `ord : List Edge`, because Go's map
  iteration order is unspecified (and randomized in practice): every behaviour
  of the compiled program corresponds to some choice of `ord` per iteration.
-/

namespace ImageCrop

/-- A pixel color: the red, green, blue channel values as returned by Go's
`Color.RGBA()`, i.e. in the range 0..65535. The alpha channel is dropped,
matching `calculateBrightness` which ignores it. -/
structure Color where
  red : ℕ
  green : ℕ
  blue : ℕ
deriving DecidableEq, Repr

/-- An image: a total assignment of a color to every integer coordinate.
The engine only ever reads coordinates inside the rectangle it is given. -/
def Image : Type := ℤ → ℤ → Color

/-- `image.Rectangle`: axis-aligned, half-open on the max side. -/
structure Rectangle where
  minX : ℤ
  minY : ℤ
  maxX : ℤ
  maxY : ℤ
deriving DecidableEq, Repr

/-- `Rectangle.Dx()` from Go's image package. -/
def Rectangle.dx (r : Rectangle) : ℤ := r.maxX - r.minX

/-- `Rectangle.Dy()` from Go's image package. -/
def Rectangle.dy (r : Rectangle) : ℤ := r.maxY - r.minY

/-- Go's `image.Rect(x0, y0, x1, y1)`: swaps the coordinates when necessary so
that the minimum corner really is the minimum. -/
def mkRect (x0 y0 x1 y1 : ℤ) : Rectangle :=
  ⟨min x0 x1, min y0 y1, max x0 x1, max y0 y1⟩

/-- Membership of a coordinate in a rectangle (half-open on the max side). -/
def inRect (r : Rectangle) (x y : ℤ) : Prop :=
  r.minX ≤ x ∧ x < r.maxX ∧ r.minY ≤ y ∧ y < r.maxY

instance (r : Rectangle) (x y : ℤ) : Decidable (inRect r x y) := by
  unfold inRect; infer_instance

/-- The list of integers `lo, lo+1, …, hi-1` (empty when `hi ≤ lo`), the
sequence a Go `for v := lo; v < hi; v++` loop visits. -/
def intRange (lo hi : ℤ) : List ℤ :=
  (List.range (hi - lo).toNat).map (fun (i : ℕ) => lo + (i : ℤ))

/-- `calculateBrightness` (cropper.go:113): luminance
`0.299*R + 0.587*G + 0.114*B` of the 8-bit-scaled channels (`>>8` on the
16-bit values, i.e. division by 256). Exact rational arithmetic stands in for
`float64`. -/
def calculateBrightness (c : Color) : ℚ :=
  ((299 * (c.red / 256) + 587 * (c.green / 256) + 114 * (c.blue / 256) : ℕ) : ℚ) / 1000

/-- `calculateRegionBrightness` (cropper.go:121): mean brightness over a
rectangle; an empty rectangle yields 0 exactly as the `count == 0` guard does. -/
def calculateRegionBrightness (img : Image) (r : Rectangle) : ℚ :=
  let xs := intRange r.minX r.maxX
  let ys := intRange r.minY r.maxY
  let count := xs.length * ys.length
  if count = 0 then 0
  else ((ys.map (fun y => (xs.map (fun x => calculateBrightness (img x y))).sum)).sum) / count

/-- The source expression `num/c*100 > tolerance` where `num` is a nonnegative
absolute deviation and `c` the center brightness, under IEEE-754 `float64`
semantics: when `c = 0` the quotient is NaN (if `num = 0`, and NaN compares
false) or +Inf (if `num > 0`, which exceeds any finite tolerance); when
`c ≠ 0` it is ordinary arithmetic. -/
def goRelGT (num c tol : ℚ) : Bool :=
  if c = 0 then decide (¬ num = 0) else decide (num / c * 100 > tol)

/-- The source expression `num/c*100 <= tolerance` (cropper.go:332) under
IEEE-754 semantics, for a nonnegative `num` and finite tolerance: with `c = 0`
the quotient is NaN or +Inf, and both `NaN <= tol` and `+Inf <= tol` are
false. -/
def goRelLE (num c tol : ℚ) : Bool :=
  if c = 0 then false else decide (num / c * 100 ≤ tol)

/-- The clamped 20% center margin of a dimension (cropper.go:145-152 and
250-257): `d/5`, raised to 1 when smaller. -/
def centerMargin (d : ℤ) : ℤ :=
  if Int.tdiv d 5 < 1 then 1 else Int.tdiv d 5

/-- The clamped 10% edge-band thickness used by `isUniform`
(cropper.go:170-177). -/
def sample10 (d : ℤ) : ℤ :=
  if Int.tdiv d 10 < 1 then 1 else Int.tdiv d 10

/-- The clamped 5% edge-band thickness used by `findUniformCrop`
(cropper.go:276-283). -/
def sample20 (d : ℤ) : ℤ :=
  if Int.tdiv d 20 < 1 then 1 else Int.tdiv d 20

/-- The center reference rectangle of a region: the region shrunk inward by the
clamped 20% margins, falling back to the whole region when that collapses
(cropper.go:154-165, identically 259-273). -/
def centerRectOf (r : Rectangle) : Rectangle :=
  let c := mkRect (r.minX + centerMargin r.dx) (r.minY + centerMargin r.dy)
    (r.maxX - centerMargin r.dx) (r.maxY - centerMargin r.dy)
  if c.dx ≤ 0 ∨ c.dy ≤ 0 then r else c

/-- Top edge band of thickness `s` (cropper.go:180, 290). -/
def topBand (r : Rectangle) (s : ℤ) : Rectangle :=
  mkRect r.minX r.minY r.maxX (r.minY + s)

/-- Bottom edge band of thickness `s` (cropper.go:187, 297). -/
def bottomBand (r : Rectangle) (s : ℤ) : Rectangle :=
  mkRect r.minX (r.maxY - s) r.maxX r.maxY

/-- Left edge band of thickness `s` (cropper.go:194, 304). -/
def leftBand (r : Rectangle) (s : ℤ) : Rectangle :=
  mkRect r.minX r.minY (r.minX + s) r.maxY

/-- Right edge band of thickness `s` (cropper.go:201, 311). -/
def rightBand (r : Rectangle) (s : ℤ) : Rectangle :=
  mkRect (r.maxX - s) r.minY r.maxX r.maxY

/-- `isUniform` (cropper.go:139-208): compare the four 10% edge bands against
the inner-60% center brightness; reject as soon as one relative deviation
exceeds the tolerance. -/
def isUniform (img : Image) (bounds : Rectangle) (tolerance : ℚ) : Bool :=
  let cb := calculateRegionBrightness img (centerRectOf bounds)
  if goRelGT |calculateRegionBrightness img (topBand bounds (sample10 bounds.dy)) - cb| cb tolerance then false
  else if goRelGT |calculateRegionBrightness img (bottomBand bounds (sample10 bounds.dy)) - cb| cb tolerance then false
  else if goRelGT |calculateRegionBrightness img (leftBand bounds (sample10 bounds.dx)) - cb| cb tolerance then false
  else if goRelGT |calculateRegionBrightness img (rightBand bounds (sample10 bounds.dx)) - cb| cb tolerance then false
  else true

/-- The four croppable edges, in the fixed insertion order used at
cropper.go:288-314. -/
inductive Edge where
  | top
  | bottom
  | left
  | right
deriving DecidableEq, Repr

/-- Truncation toward zero of a rational, Go's `int(x)` conversion from
`float64`. -/
def ratTrunc (q : ℚ) : ℤ :=
  if q < 0 then -Int.floor (-q) else Int.floor q

/-- `int(float64(d) * maxCropPercent / 100.0)` (cropper.go:216-217): the crop
ceiling for one dimension. -/
def maxCropOf (d : ℤ) (maxCropPercent : ℚ) : ℤ :=
  ratTrunc ((d : ℚ) * maxCropPercent / 100)

/-- `int(math.Max(1, float64(w+h)/200))` (cropper.go:338): the shrink step.
For any integer `w+h`, truncating `max 1 ((w+h)/200)` toward zero equals
`max 1 (tdiv (w+h) 200)`. -/
def cropAmount (w h : ℤ) : ℤ :=
  max 1 (Int.tdiv (w + h) 200)

/-- The per-edge deviation map of one search iteration (cropper.go:286-314), as
an association list in the source's insertion order. An edge is inserted only
when its dimension has not reached its crop ceiling. `cb` is the center
reference brightness of the current crop rectangle. -/
def scanEdges (img : Image) (bounds : Rectangle) (maxCropPercent : ℚ)
    (r : Rectangle) (cb : ℚ) : List (Edge × ℚ) :=
  let croppedW := bounds.dx - r.dx
  let croppedH := bounds.dy - r.dy
  let maxCW := maxCropOf bounds.dx maxCropPercent
  let maxCH := maxCropOf bounds.dy maxCropPercent
  (if croppedH < maxCH then
    [(Edge.top, |calculateRegionBrightness img (topBand r (sample20 r.dy)) - cb|)] else []) ++
  (if croppedH < maxCH then
    [(Edge.bottom, |calculateRegionBrightness img (bottomBand r (sample20 r.dy)) - cb|)] else []) ++
  (if croppedW < maxCW then
    [(Edge.left, |calculateRegionBrightness img (leftBand r (sample20 r.dx)) - cb|)] else []) ++
  (if croppedW < maxCW then
    [(Edge.right, |calculateRegionBrightness img (rightBand r (sample20 r.dx)) - cb|)] else [])

/-- First-match lookup in the edge association list (keys are distinct, so this
is exactly Go map access). -/
def edgeLookup : List (Edge × ℚ) → Edge → Option ℚ
  | [], _ => none
  | p :: ps, e => if p.1 = e then some p.2 else edgeLookup ps e

/-- The sequence of map entries visited by `for edge, deviation := range edges`
under iteration order `ord`: the keys of `ord` that are present in the map, in
the order of `ord`. Go leaves this order unspecified; taking `ord` to be any
permutation of the four edges covers every possible behaviour. -/
def iterOrder (ord : List Edge) (l : List (Edge × ℚ)) : List (Edge × ℚ) :=
  ord.filterMap (fun e => (edgeLookup l e).map (fun d => (e, d)))

/-- The max-deviation scan (cropper.go:321-329): fold with a strict `>`
against the running maximum, starting from the zero value (`""`/`0` in the
source, `none`/`0` here). -/
def pickMax (l : List (Edge × ℚ)) : Option Edge × ℚ :=
  l.foldl (fun acc p => if p.2 > acc.2 then (some p.1, p.2) else acc) (none, 0)

/-- The chosen edge and its deviation for one iteration of the search on crop
rectangle `r`, under map iteration order `ord`. -/
def stepPick (img : Image) (bounds : Rectangle) (maxCropPercent : ℚ)
    (ord : List Edge) (r : Rectangle) : Option Edge × ℚ :=
  pickMax (iterOrder ord
    (scanEdges img bounds maxCropPercent r
      (calculateRegionBrightness img (centerRectOf r))))

/-- The `switch maxEdge` shrink (cropper.go:340-349); when no edge was picked
(`maxEdge == ""`) no case matches and the rectangle is unchanged. -/
def applyCrop : Option Edge → Rectangle → ℤ → Rectangle
  | none, r, _ => r
  | some Edge.top, r, a => ⟨r.minX, r.minY + a, r.maxX, r.maxY⟩
  | some Edge.bottom, r, a => ⟨r.minX, r.minY, r.maxX, r.maxY - a⟩
  | some Edge.left, r, a => ⟨r.minX + a, r.minY, r.maxX, r.maxY⟩
  | some Edge.right, r, a => ⟨r.minX, r.minY, r.maxX - a, r.maxY⟩

/-- The rectangle produced by one shrink attempt from state `r`. -/
def stepShrunk (img : Image) (bounds : Rectangle) (maxCropPercent : ℚ)
    (ord : List Edge) (r : Rectangle) : Rectangle :=
  applyCrop (stepPick img bounds maxCropPercent ord r).1 r (cropAmount r.dx r.dy)

/-- Outcome of one iteration of the `findUniformCrop` loop body. -/
inductive StepRes where
  | done (r : Rectangle)
  | failed
  | next (r : Rectangle)
deriving DecidableEq, Repr

/-- One iteration of the `findUniformCrop` loop body (cropper.go:229-355) on
the current crop rectangle `r`, with `ord` the map iteration order of this
iteration. Return sites in source order: the uniformity success (231-233), the
crop-ceiling exit (243-246), the empty-edge-map exit (317-319), the
within-tolerance exit (331-334), and the degenerate-rectangle failure
(351-354); otherwise the loop continues on the shrunk rectangle. -/
def cropStep (img : Image) (bounds : Rectangle) (tolerance maxCropPercent : ℚ)
    (ord : List Edge) (r : Rectangle) : StepRes :=
  if isUniform img r tolerance then StepRes.done r
  else if bounds.dx - r.dx ≥ maxCropOf bounds.dx maxCropPercent ∧
      bounds.dy - r.dy ≥ maxCropOf bounds.dy maxCropPercent then StepRes.done r
  else
    let cb := calculateRegionBrightness img (centerRectOf r)
    if (scanEdges img bounds maxCropPercent r cb).isEmpty then StepRes.done r
    else
      let pick := pickMax (iterOrder ord (scanEdges img bounds maxCropPercent r cb))
      if goRelLE pick.2 cb tolerance then StepRes.done r
      else
        let shrunk := applyCrop pick.1 r (cropAmount r.dx r.dy)
        if shrunk.dx ≤ 0 ∨ shrunk.dy ≤ 0 then StepRes.failed
        else StepRes.next shrunk

/-- The bounded search loop: `fuel` iterations remain, `i` is the index of the
current iteration (used to select its map iteration order from `ords`). When
the fuel runs out the current rectangle is returned (cropper.go:357). -/
def cropLoop (img : Image) (bounds : Rectangle) (tolerance maxCropPercent : ℚ)
    (ords : ℕ → List Edge) : ℕ → ℕ → Rectangle → Except Unit Rectangle
  | 0, _, r => Except.ok r
  | n + 1, i, r =>
    match cropStep img bounds tolerance maxCropPercent (ords i) r with
    | StepRes.done r2 => Except.ok r2
    | StepRes.failed => Except.error ()
    | StepRes.next r2 => cropLoop img bounds tolerance maxCropPercent ords n (i + 1) r2

/-- The iteration cap (cropper.go:224-227): `max(W, H) / 2`, raised to 100. -/
def maxIterations (w h : ℤ) : ℤ :=
  if Int.tdiv (max w h) 2 < 100 then 100 else Int.tdiv (max w h) 2

/-- `findUniformCrop` (cropper.go:211-357), parameterized by the per-iteration
map iteration orders `ords`. An `Except.error` models the
"crop would result in empty image" failure return. -/
def findUniformCrop (img : Image) (bounds : Rectangle)
    (tolerance maxCropPercent : ℚ) (ords : ℕ → List Edge) : Except Unit Rectangle :=
  cropLoop img bounds tolerance maxCropPercent ords
    (maxIterations bounds.dx bounds.dy).toNat 0 bounds

/-- Number of loop-body executions `cropLoop` performs. -/
def cropLoopSteps (img : Image) (bounds : Rectangle) (tolerance maxCropPercent : ℚ)
    (ords : ℕ → List Edge) : ℕ → ℕ → Rectangle → ℕ
  | 0, _, _ => 0
  | n + 1, i, r =>
    match cropStep img bounds tolerance maxCropPercent (ords i) r with
    | StepRes.next r2 => 1 + cropLoopSteps img bounds tolerance maxCropPercent ords n (i + 1) r2
    | _ => 1

/-- Number of loop-body executions of a `findUniformCrop` run. -/
def findUniformCropSteps (img : Image) (bounds : Rectangle)
    (tolerance maxCropPercent : ℚ) (ords : ℕ → List Edge) : ℕ :=
  cropLoopSteps img bounds tolerance maxCropPercent ords
    (maxIterations bounds.dx bounds.dy).toNat 0 bounds

/-- The loop-entry states (iteration index, crop rectangle) a `cropLoop` run
visits. -/
def cropTrace (img : Image) (bounds : Rectangle) (tolerance maxCropPercent : ℚ)
    (ords : ℕ → List Edge) : ℕ → ℕ → Rectangle → List (ℕ × Rectangle)
  | 0, _, _ => []
  | n + 1, i, r =>
    (i, r) ::
      (match cropStep img bounds tolerance maxCropPercent (ords i) r with
      | StepRes.next r2 => cropTrace img bounds tolerance maxCropPercent ords n (i + 1) r2
      | _ => [])

/-- The decision core of `CropImage` (cropper.go:41-57, 88-92), stripped of
file I/O and encoding: `Except.ok b` means the operation succeeds with
`WasCropped = b`. The result is unchanged (`WasCropped = false`) when the
image is already uniform or when the returned crop rectangle still has the
full width and height. -/
def cropImagePure (img : Image) (bounds : Rectangle)
    (tolerance maxCropPercent : ℚ) (ords : ℕ → List Edge) : Except Unit Bool :=
  if isUniform img bounds tolerance then Except.ok false
  else
    match findUniformCrop img bounds tolerance maxCropPercent ords with
    | Except.error e => Except.error e
    | Except.ok r =>
      if r.dx = bounds.dx ∧ r.dy = bounds.dy then Except.ok false
      else Except.ok true

/-- The four corners accepted by the corner-crop variant. -/
inductive Corner where
  | tl
  | tr
  | bl
  | br
deriving DecidableEq, Repr

/-- The crop rectangle computed by the corner-crop `CropImage` (the unnamed
source file, lines 30-52) for a `width × height` image whose bounds start at
the origin, cropping `percent` percent from the given corner. -/
def cornerCropRect (corner : Corner) (width height : ℤ) (percent : ℚ) : Rectangle :=
  let cropWidth := ratTrunc ((width : ℚ) * (percent / 100))
  let cropHeight := ratTrunc ((height : ℚ) * (percent / 100))
  let newWidth := width - cropWidth
  let newHeight := height - cropHeight
  match corner with
  | Corner.tl => mkRect cropWidth cropHeight width height
  | Corner.tr => mkRect 0 cropHeight newWidth height
  | Corner.bl => mkRect cropWidth 0 width newHeight
  | Corner.br => mkRect 0 0 newWidth newHeight

/-- The pixel-copy loop of both crop materializers (cropper.go:61-65 and the
unnamed file's lines 58-62): pixel `(i, j)` of the output buffer is the source
pixel at `(minX + i, minY + j)` of the crop rectangle. -/
def materializedPixel (img : Image) (r : Rectangle) (i j : ℤ) : Color :=
  img (r.minX + i) (r.minY + j)

/-! ### Basic facts about ranges, sums and region brightness -/

theorem mem_intRange {lo hi x : ℤ} : x ∈ intRange lo hi ↔ lo ≤ x ∧ x < hi := by
  unfold intRange
  constructor
  · intro hx
    obtain ⟨i, hi2, hEq⟩ := List.mem_map.1 hx
    have hilt : i < (hi - lo).toNat := List.mem_range.1 hi2
    subst hEq
    omega
  · intro h
    have hmem : (x - lo).toNat ∈ List.range (hi - lo).toNat := List.mem_range.2 (by omega)
    have heq : lo + (((x - lo).toNat : ℕ) : ℤ) = x := by omega
    exact List.mem_map.2 ⟨(x - lo).toNat, hmem, heq⟩

theorem intRange_length (lo hi : ℤ) : (intRange lo hi).length = (hi - lo).toNat := by
  unfold intRange
  rw [List.length_map, List.length_range]

theorem list_sum_const {l : List ℚ} {c : ℚ} (h : ∀ x ∈ l, x = c) :
    l.sum = l.length * c := by
  induction l with
  | nil => simp
  | cons a t ih =>
    simp only [List.sum_cons, List.length_cons]
    rw [h a (by simp), ih (fun x hx => h x (by simp [hx]))]
    push_cast
    ring

theorem calculateBrightness_nonneg (c : Color) : 0 ≤ calculateBrightness c := by
  unfold calculateBrightness
  positivity

theorem calculateRegionBrightness_congr {img1 img2 : Image} {r : Rectangle}
    (h : ∀ x y, inRect r x y → img1 x y = img2 x y) :
    calculateRegionBrightness img1 r = calculateRegionBrightness img2 r := by
  unfold calculateRegionBrightness
  have hmaps : (intRange r.minY r.maxY).map
        (fun y => ((intRange r.minX r.maxX).map (fun x => calculateBrightness (img1 x y))).sum)
      = (intRange r.minY r.maxY).map
        (fun y => ((intRange r.minX r.maxX).map (fun x => calculateBrightness (img2 x y))).sum) := by
    apply List.map_congr_left
    intro y hy
    have hrow : (intRange r.minX r.maxX).map (fun x => calculateBrightness (img1 x y))
        = (intRange r.minX r.maxX).map (fun x => calculateBrightness (img2 x y)) := by
      apply List.map_congr_left
      intro x hx
      rw [h x y ⟨(mem_intRange.1 hx).1, (mem_intRange.1 hx).2,
        (mem_intRange.1 hy).1, (mem_intRange.1 hy).2⟩]
    rw [hrow]
  simp only [hmaps]

theorem calculateRegionBrightness_const {img : Image} {r : Rectangle} {b : ℚ}
    (h : ∀ x y, inRect r x y → calculateBrightness (img x y) = b)
    (hw : 0 < r.dx) (hh : 0 < r.dy) :
    calculateRegionBrightness img r = b := by
  unfold calculateRegionBrightness
  have hrow : ∀ y ∈ intRange r.minY r.maxY,
      ((intRange r.minX r.maxX).map (fun x => calculateBrightness (img x y))).sum
        = ((intRange r.minX r.maxX).length : ℚ) * b := by
    intro y hy
    have hconst : ∀ v ∈ (intRange r.minX r.maxX).map (fun x => calculateBrightness (img x y)),
        v = b := by
      intro v hv
      obtain ⟨x, hx, rfl⟩ := List.mem_map.1 hv
      exact h x y ⟨(mem_intRange.1 hx).1, (mem_intRange.1 hx).2,
        (mem_intRange.1 hy).1, (mem_intRange.1 hy).2⟩
    rw [list_sum_const hconst, List.length_map]
  have houter : ((intRange r.minY r.maxY).map
      (fun y => ((intRange r.minX r.maxX).map (fun x => calculateBrightness (img x y))).sum)).sum
      = ((intRange r.minY r.maxY).length : ℚ) * (((intRange r.minX r.maxX).length : ℚ) * b) := by
    have hconst : ∀ v ∈ (intRange r.minY r.maxY).map
        (fun y => ((intRange r.minX r.maxX).map (fun x => calculateBrightness (img x y))).sum),
        v = ((intRange r.minX r.maxX).length : ℚ) * b := by
      intro v hv
      obtain ⟨y, hy, rfl⟩ := List.mem_map.1 hv
      exact hrow y hy
    rw [list_sum_const hconst, List.length_map]
  have hxpos : 0 < (intRange r.minX r.maxX).length := by
    rw [intRange_length]
    unfold Rectangle.dx at hw
    omega
  have hypos : 0 < (intRange r.minY r.maxY).length := by
    rw [intRange_length]
    unfold Rectangle.dy at hh
    omega
  have hcount : ¬ ((intRange r.minX r.maxX).length * (intRange r.minY r.maxY).length = 0) := by
    positivity
  rw [if_neg hcount, houter]
  have hx0 : ((intRange r.minX r.maxX).length : ℚ) ≠ 0 := by positivity
  have hy0 : ((intRange r.minY r.maxY).length : ℚ) ≠ 0 := by positivity
  push_cast
  field_simp
  ring

/-! ### Geometry of the sampled regions -/

theorem tdiv_le_self_of_nonneg {d k : ℤ} (hd : 0 ≤ d) (hk : 0 ≤ k) : Int.tdiv d k ≤ d := by
  rw [Int.tdiv_eq_ediv hd hk]
  exact Int.ediv_le_self _ hd

theorem centerMargin_bounds {d : ℤ} (hd : 1 ≤ d) :
    1 ≤ centerMargin d ∧ centerMargin d ≤ d := by
  unfold centerMargin
  split
  · omega
  · have := tdiv_le_self_of_nonneg (by omega : (0:ℤ) ≤ d) (by norm_num : (0:ℤ) ≤ 5)
    omega

theorem sample10_bounds {d : ℤ} (hd : 1 ≤ d) :
    1 ≤ sample10 d ∧ sample10 d ≤ d := by
  unfold sample10
  split
  · omega
  · have := tdiv_le_self_of_nonneg (by omega : (0:ℤ) ≤ d) (by norm_num : (0:ℤ) ≤ 10)
    omega

theorem sample20_bounds {d : ℤ} (hd : 1 ≤ d) :
    1 ≤ sample20 d ∧ sample20 d ≤ d := by
  unfold sample20
  split
  · omega
  · have := tdiv_le_self_of_nonneg (by omega : (0:ℤ) ≤ d) (by norm_num : (0:ℤ) ≤ 20)
    omega

theorem centerRectOf_spec {r : Rectangle} (hw : 0 < r.dx) (hh : 0 < r.dy) :
    (∀ x y, inRect (centerRectOf r) x y → inRect r x y) ∧
    0 < (centerRectOf r).dx ∧ 0 < (centerRectOf r).dy := by
  have hmx := centerMargin_bounds (by omega : 1 ≤ r.dx)
  have hmy := centerMargin_bounds (by omega : 1 ≤ r.dy)
  simp only [centerRectOf]
  split
  · exact ⟨fun x y hxy => hxy, hw, hh⟩
  · rename_i hnot
    unfold mkRect Rectangle.dx Rectangle.dy inRect at *
    dsimp only at *
    constructor
    · intro x y hxy
      omega
    · omega

theorem topBand_spec {r : Rectangle} {s : ℤ} (hs : 1 ≤ s) (hsle : s ≤ r.dy) (hw : 0 < r.dx) :
    (∀ x y, inRect (topBand r s) x y → inRect r x y) ∧
    0 < (topBand r s).dx ∧ 0 < (topBand r s).dy := by
  unfold topBand mkRect Rectangle.dx Rectangle.dy inRect at *
  dsimp only at *
  refine ⟨fun x y hxy => ?_, by omega, by omega⟩
  omega

theorem bottomBand_spec {r : Rectangle} {s : ℤ} (hs : 1 ≤ s) (hsle : s ≤ r.dy) (hw : 0 < r.dx) :
    (∀ x y, inRect (bottomBand r s) x y → inRect r x y) ∧
    0 < (bottomBand r s).dx ∧ 0 < (bottomBand r s).dy := by
  unfold bottomBand mkRect Rectangle.dx Rectangle.dy inRect at *
  dsimp only at *
  refine ⟨fun x y hxy => ?_, by omega, by omega⟩
  omega

theorem leftBand_spec {r : Rectangle} {s : ℤ} (hs : 1 ≤ s) (hsle : s ≤ r.dx) (hh : 0 < r.dy) :
    (∀ x y, inRect (leftBand r s) x y → inRect r x y) ∧
    0 < (leftBand r s).dx ∧ 0 < (leftBand r s).dy := by
  unfold leftBand mkRect Rectangle.dx Rectangle.dy inRect at *
  dsimp only at *
  refine ⟨fun x y hxy => ?_, by omega, by omega⟩
  omega

theorem rightBand_spec {r : Rectangle} {s : ℤ} (hs : 1 ≤ s) (hsle : s ≤ r.dx) (hh : 0 < r.dy) :
    (∀ x y, inRect (rightBand r s) x y → inRect r x y) ∧
    0 < (rightBand r s).dx ∧ 0 < (rightBand r s).dy := by
  unfold rightBand mkRect Rectangle.dx Rectangle.dy inRect at *
  dsimp only at *
  refine ⟨fun x y hxy => ?_, by omega, by omega⟩
  omega

/-! ### The comparison sites -/

theorem goRelGT_zero_num {c tol : ℚ} (htol : 0 ≤ tol) : goRelGT 0 c tol = false := by
  unfold goRelGT
  split
  · simp
  · simp only [zero_div, zero_mul, decide_eq_false_iff_not, not_lt]
    exact htol

theorem goRelGT_zero_den {num tol : ℚ} : goRelGT num 0 tol = decide (¬ num = 0) := by
  unfold goRelGT
  rw [if_pos rfl]

/-- On a constant-colored region every sampled rectangle of `isUniform` reads
the constant brightness, so the evaluator accepts for any `tolerance ≥ 0`. -/
theorem isUniform_of_const {img : Image} {bounds : Rectangle} {c : Color} {tol : ℚ}
    (himg : ∀ x y, inRect bounds x y → img x y = c)
    (hw : 0 < bounds.dx) (hh : 0 < bounds.dy) (htol : 0 ≤ tol) :
    isUniform img bounds tol = true := by
  have hcspec := centerRectOf_spec hw hh
  have h10y := sample10_bounds (by omega : 1 ≤ bounds.dy)
  have h10x := sample10_bounds (by omega : 1 ≤ bounds.dx)
  have htspec := topBand_spec h10y.1 h10y.2 hw
  have hbspec := bottomBand_spec h10y.1 h10y.2 hw
  have hlspec := leftBand_spec h10x.1 h10x.2 hh
  have hrspec := rightBand_spec h10x.1 h10x.2 hh
  have hcb : calculateRegionBrightness img (centerRectOf bounds) = calculateBrightness c :=
    calculateRegionBrightness_const
      (fun x y hin => by rw [himg x y (hcspec.1 x y hin)]) hcspec.2.1 hcspec.2.2
  have htb : calculateRegionBrightness img (topBand bounds (sample10 bounds.dy))
      = calculateBrightness c :=
    calculateRegionBrightness_const
      (fun x y hin => by rw [himg x y (htspec.1 x y hin)]) htspec.2.1 htspec.2.2
  have hbb : calculateRegionBrightness img (bottomBand bounds (sample10 bounds.dy))
      = calculateBrightness c :=
    calculateRegionBrightness_const
      (fun x y hin => by rw [himg x y (hbspec.1 x y hin)]) hbspec.2.1 hbspec.2.2
  have hlb : calculateRegionBrightness img (leftBand bounds (sample10 bounds.dx))
      = calculateBrightness c :=
    calculateRegionBrightness_const
      (fun x y hin => by rw [himg x y (hlspec.1 x y hin)]) hlspec.2.1 hlspec.2.2
  have hrb : calculateRegionBrightness img (rightBand bounds (sample10 bounds.dx))
      = calculateBrightness c :=
    calculateRegionBrightness_const
      (fun x y hin => by rw [himg x y (hrspec.1 x y hin)]) hrspec.2.1 hrspec.2.2
  simp only [isUniform, hcb, htb, hbb, hlb, hrb, sub_self, abs_zero,
    goRelGT_zero_num htol]
  simp

/-! ### Concrete example inputs used by witnesses and counterexamples -/

/-- Gray with 8-bit value 128 (16-bit channel value 128·257); brightness 128. -/
def grayColor : Color := ⟨32896, 32896, 32896⟩

/-- White (brightness 255). -/
def whiteColor : Color := ⟨65535, 65535, 65535⟩

/-- Near-black gray with 8-bit value 1 (brightness 1). -/
def darkColor : Color := ⟨257, 257, 257⟩

/-- Pure black (brightness 0). -/
def blackColor : Color := ⟨0, 0, 0⟩

/-- A uniformly gray image. -/
def flatImg : Image := fun _ _ => grayColor

/-- A gray image edited outside the left edge of `squareBounds` only. -/
def flatImgEdited : Image := fun x _ => if x < 0 then whiteColor else grayColor

/-- A pure black image. -/
def blackImg : Image := fun _ _ => blackColor

/-- Small 3×3 bounds. -/
def squareBounds : Rectangle := ⟨0, 0, 3, 3⟩

/-- The fixed edge order top, bottom, left, right at every iteration. -/
def prioOrders : ℕ → List Edge := fun _ => [Edge.top, Edge.bottom, Edge.left, Edge.right]

/-! ### Claim theorems -/

/-- Claim C5: for every image all of whose pixels (inside the bounds) have the
same color, with positive width and height, and every tolerance ≥ 0,
`isUniform` accepts the full bounds and the `CropImage` decision core reports
`WasCropped = false`. -/
theorem c5_flat_image_unchanged {img : Image} {bounds : Rectangle} {c : Color}
    {tol maxCropPercent : ℚ} {ords : ℕ → List Edge}
    (himg : ∀ x y, inRect bounds x y → img x y = c)
    (hw : 0 < bounds.dx) (hh : 0 < bounds.dy) (htol : 0 ≤ tol) :
    isUniform img bounds tol = true ∧
    cropImagePure img bounds tol maxCropPercent ords = Except.ok false := by
  have hu := isUniform_of_const himg hw hh htol
  refine ⟨hu, ?_⟩
  unfold cropImagePure
  rw [hu]
  simp

theorem c5_flat_image_unchanged_witness :
    (∀ x y, inRect squareBounds x y → flatImg x y = grayColor) ∧
    0 < squareBounds.dx ∧ 0 < squareBounds.dy ∧ (0 : ℚ) ≤ 15 ∧
    (isUniform flatImg squareBounds 15 = true ∧
      cropImagePure flatImg squareBounds 15 30 prioOrders = Except.ok false) :=
  ⟨fun _ _ _ => rfl, by decide, by decide, by norm_num,
    c5_flat_image_unchanged (fun _ _ _ => rfl) (by decide) (by decide) (by norm_num)⟩

/-- Claim C7: `isUniform` is a function of the pixel content of the rectangle
it is given: two images that agree on every pixel of a positive-area rectangle
produce the same verdict at every tolerance (determinism is definitional — the
embedding is a pure function of its arguments). -/
theorem c7_isUniform_depends_only_on_region {img1 img2 : Image} {r : Rectangle} {tol : ℚ}
    (hw : 0 < r.dx) (hh : 0 < r.dy)
    (hagree : ∀ x y, inRect r x y → img1 x y = img2 x y) :
    isUniform img1 r tol = isUniform img2 r tol := by
  have hcspec := centerRectOf_spec hw hh
  have h10y := sample10_bounds (by omega : 1 ≤ r.dy)
  have h10x := sample10_bounds (by omega : 1 ≤ r.dx)
  have htspec := topBand_spec h10y.1 h10y.2 hw
  have hbspec := bottomBand_spec h10y.1 h10y.2 hw
  have hlspec := leftBand_spec h10x.1 h10x.2 hh
  have hrspec := rightBand_spec h10x.1 h10x.2 hh
  have hcb := calculateRegionBrightness_congr (r := centerRectOf r)
    (fun x y hin => hagree x y (hcspec.1 x y hin))
  have htb := calculateRegionBrightness_congr (r := topBand r (sample10 r.dy))
    (fun x y hin => hagree x y (htspec.1 x y hin))
  have hbb := calculateRegionBrightness_congr (r := bottomBand r (sample10 r.dy))
    (fun x y hin => hagree x y (hbspec.1 x y hin))
  have hlb := calculateRegionBrightness_congr (r := leftBand r (sample10 r.dx))
    (fun x y hin => hagree x y (hlspec.1 x y hin))
  have hrb := calculateRegionBrightness_congr (r := rightBand r (sample10 r.dx))
    (fun x y hin => hagree x y (hrspec.1 x y hin))
  simp only [isUniform, hcb, htb, hbb, hlb, hrb]

theorem c7_isUniform_depends_only_on_region_witness :
    0 < squareBounds.dx ∧ 0 < squareBounds.dy ∧
    (∀ x y, inRect squareBounds x y → flatImg x y = flatImgEdited x y) ∧
    isUniform flatImg squareBounds 15 = isUniform flatImgEdited squareBounds 15 := by
  have hagree : ∀ x y, inRect squareBounds x y → flatImg x y = flatImgEdited x y := by
    intro x y hin
    have hx : (0:ℤ) ≤ x := hin.1
    unfold flatImg flatImgEdited
    rw [if_neg (by omega)]
  exact ⟨by decide, by decide, hagree,
    c7_isUniform_depends_only_on_region (by decide) (by decide) hagree⟩

/-- Claim C10: when the center reference brightness is exactly 0 (pure black
reference region), `isUniform` never errors; under the IEEE semantics of the
division by zero (NaN never exceeds the tolerance, +Inf always does) it
accepts exactly when all four 10% edge bands also average to brightness 0. -/
theorem c10_zero_center_reference {img : Image} {bounds : Rectangle} {tol : ℚ}
    (hcb : calculateRegionBrightness img (centerRectOf bounds) = 0) :
    (isUniform img bounds tol = true ↔
      (calculateRegionBrightness img (topBand bounds (sample10 bounds.dy)) = 0 ∧
       calculateRegionBrightness img (bottomBand bounds (sample10 bounds.dy)) = 0 ∧
       calculateRegionBrightness img (leftBand bounds (sample10 bounds.dx)) = 0 ∧
       calculateRegionBrightness img (rightBand bounds (sample10 bounds.dx)) = 0)) := by
  simp only [isUniform, hcb, sub_zero, goRelGT_zero_den, abs_eq_zero, decide_eq_true_eq]
  split_ifs with h1 h2 h3 h4 <;> simp_all

theorem c10_zero_center_reference_witness :
    calculateRegionBrightness blackImg (centerRectOf squareBounds) = 0 ∧
    (isUniform blackImg squareBounds 15 = true ↔
      (calculateRegionBrightness blackImg (topBand squareBounds (sample10 squareBounds.dy)) = 0 ∧
       calculateRegionBrightness blackImg (bottomBand squareBounds (sample10 squareBounds.dy)) = 0 ∧
       calculateRegionBrightness blackImg (leftBand squareBounds (sample10 squareBounds.dx)) = 0 ∧
       calculateRegionBrightness blackImg (rightBand squareBounds (sample10 squareBounds.dx)) = 0)) := by
  have hcb : calculateRegionBrightness blackImg (centerRectOf squareBounds) = 0 := by
    with_unfolding_all decide
  exact ⟨hcb, c10_zero_center_reference hcb⟩

theorem ratTrunc_eq_floor {q : ℚ} (hq : 0 ≤ q) : ratTrunc q = Int.floor q := by
  unfold ratTrunc
  rw [if_neg (not_lt.2 hq)]

/-- Claim C8: corner-crop mode with corner `tl` on a `W×H` image and percent
`0 < p < 100` yields a crop rectangle of size
`(W - ⌊W*p/100⌋) × (H - ⌊H*p/100⌋)`, and the materialized output pixel at
`(i, j)` is the source pixel at `(⌊W*p/100⌋ + i, ⌊H*p/100⌋ + j)` — exactly the
bottom-right sub-region of the source. -/
theorem c8_corner_crop_tl (img : Image) (W H i j : ℤ) (p : ℚ)
    (hW : 0 < W) (hH : 0 < H) (hp0 : 0 < p) (hp1 : p < 100) :
    (cornerCropRect Corner.tl W H p).dx = W - Int.floor ((W : ℚ) * p / 100) ∧
    (cornerCropRect Corner.tl W H p).dy = H - Int.floor ((H : ℚ) * p / 100) ∧
    materializedPixel img (cornerCropRect Corner.tl W H p) i j
      = img (Int.floor ((W : ℚ) * p / 100) + i) (Int.floor ((H : ℚ) * p / 100) + j) := by
  have hbound : ∀ d : ℤ, 0 < d →
      ratTrunc ((d : ℚ) * (p / 100)) = Int.floor ((d : ℚ) * p / 100) ∧
      0 ≤ Int.floor ((d : ℚ) * p / 100) ∧ Int.floor ((d : ℚ) * p / 100) < d := by
    intro d hd
    have hd0 : (0:ℚ) < (d:ℚ) := by exact_mod_cast hd
    have hq0 : (0:ℚ) ≤ (d : ℚ) * (p / 100) := by positivity
    have heq : ratTrunc ((d : ℚ) * (p / 100)) = Int.floor ((d : ℚ) * p / 100) := by
      rw [ratTrunc_eq_floor hq0, mul_div_assoc]
    have hlt : (d : ℚ) * p / 100 < (d : ℚ) := by
      rw [div_lt_iff₀ (by norm_num : (0:ℚ) < 100)]
      have := (mul_lt_mul_left hd0).2 hp1
      linarith
    refine ⟨heq, Int.floor_nonneg.2 (by positivity), ?_⟩
    exact Int.floor_lt.2 (by exact_mod_cast hlt)
  obtain ⟨hWeq, hW0, hWlt⟩ := hbound W hW
  obtain ⟨hHeq, hH0, hHlt⟩ := hbound H hH
  simp only [cornerCropRect, hWeq, hHeq]
  unfold mkRect materializedPixel Rectangle.dx Rectangle.dy
  dsimp only
  rw [min_eq_left (le_of_lt hWlt), max_eq_right (le_of_lt hWlt),
    min_eq_left (le_of_lt hHlt), max_eq_right (le_of_lt hHlt)]
  exact ⟨rfl, rfl, rfl⟩

/-! ### Step-level lemmas for the crop-search loop -/

theorem cropStep_done_eq {img : Image} {bounds : Rectangle} {tol mcp : ℚ} {ord : List Edge}
    {r r2 : Rectangle} (h : cropStep img bounds tol mcp ord r = StepRes.done r2) :
    r2 = r := by
  simp only [cropStep] at h
  split at h
  · injection h with h
    exact h.symm
  · split at h
    · injection h with h
      exact h.symm
    · split at h
      · injection h with h
        exact h.symm
      · split at h
        · injection h with h
          exact h.symm
        · split at h
          · simp at h
          · simp at h

theorem cropStep_next_spec {img : Image} {bounds : Rectangle} {tol mcp : ℚ} {ord : List Edge}
    {r r2 : Rectangle} (h : cropStep img bounds tol mcp ord r = StepRes.next r2) :
    r2 = stepShrunk img bounds mcp ord r ∧ 0 < r2.dx ∧ 0 < r2.dy ∧
    isUniform img r tol = false := by
  simp only [cropStep] at h
  split at h
  · simp at h
  · rename_i hu
    split at h
    · simp at h
    · split at h
      · simp at h
      · split at h
        · simp at h
        · split at h
          · simp at h
          · rename_i hdeg
            injection h with h
            subst h
            simp only [Bool.not_eq_true] at hu
            refine ⟨?_, by omega, by omega, hu⟩
            unfold stepShrunk stepPick
            exact rfl

theorem cropStep_failed_spec {img : Image} {bounds : Rectangle} {tol mcp : ℚ} {ord : List Edge}
    {r : Rectangle} (h : cropStep img bounds tol mcp ord r = StepRes.failed) :
    (stepShrunk img bounds mcp ord r).dx ≤ 0 ∨ (stepShrunk img bounds mcp ord r).dy ≤ 0 := by
  simp only [cropStep] at h
  split at h
  · simp at h
  · split at h
    · simp at h
    · split at h
      · simp at h
      · split at h
        · simp at h
        · split at h
          · rename_i hdeg
            unfold stepShrunk stepPick
            exact hdeg
          · simp at h

theorem cropStep_uniform_done {img : Image} {bounds : Rectangle} {tol mcp : ℚ} {ord : List Edge}
    {r : Rectangle} (h : isUniform img r tol = true) :
    cropStep img bounds tol mcp ord r = StepRes.done r := by
  simp only [cropStep]
  rw [if_pos h]

theorem applyCrop_within (oe : Option Edge) (r : Rectangle) (a : ℤ) (ha : 0 ≤ a) :
    r.minX ≤ (applyCrop oe r a).minX ∧ (applyCrop oe r a).maxX ≤ r.maxX ∧
    r.minY ≤ (applyCrop oe r a).minY ∧ (applyCrop oe r a).maxY ≤ r.maxY := by
  rcases oe with _ | e
  · exact ⟨le_refl _, le_refl _, le_refl _, le_refl _⟩
  · cases e <;> (simp only [applyCrop]; omega)

theorem applyCrop_split (oe : Option Edge) (r : Rectangle) (a : ℤ) :
    (applyCrop oe r a = r ∧ oe = none) ∨
    ((oe = some Edge.left ∨ oe = some Edge.right) ∧
      (applyCrop oe r a).dx = r.dx - a ∧ (applyCrop oe r a).dy = r.dy) ∨
    ((oe = some Edge.top ∨ oe = some Edge.bottom) ∧
      (applyCrop oe r a).dx = r.dx ∧ (applyCrop oe r a).dy = r.dy - a) := by
  rcases oe with _ | e
  · exact Or.inl ⟨rfl, rfl⟩
  · cases e
    · refine Or.inr (Or.inr ⟨Or.inl rfl, ?_, ?_⟩) <;>
        (simp only [applyCrop, Rectangle.dx, Rectangle.dy]; try ring)
    · refine Or.inr (Or.inr ⟨Or.inr rfl, ?_, ?_⟩) <;>
        (simp only [applyCrop, Rectangle.dx, Rectangle.dy]; try ring)
    · refine Or.inr (Or.inl ⟨Or.inl rfl, ?_, ?_⟩) <;>
        (simp only [applyCrop, Rectangle.dx, Rectangle.dy]; try ring)
    · refine Or.inr (Or.inl ⟨Or.inr rfl, ?_, ?_⟩) <;>
        (simp only [applyCrop, Rectangle.dx, Rectangle.dy]; try ring)

theorem cropAmount_pos (w h : ℤ) : 1 ≤ cropAmount w h :=
  le_max_left _ _

theorem cropAmount_mono {w h w2 h2 : ℤ} (hw : 0 ≤ w) (hh : 0 ≤ h)
    (hw2 : w ≤ w2) (hh2 : h ≤ h2) : cropAmount w h ≤ cropAmount w2 h2 := by
  unfold cropAmount
  have ha : (0:ℤ) ≤ w + h := by omega
  have hb : (0:ℤ) ≤ w2 + h2 := by omega
  have h200 : (0:ℤ) ≤ 200 := by norm_num
  have h1 : Int.tdiv (w + h) 200 ≤ Int.tdiv (w2 + h2) 200 := by
    rw [Int.tdiv_eq_ediv ha h200, Int.tdiv_eq_ediv hb h200]
    exact Int.ediv_le_ediv (by norm_num) (by omega)
  omega

/-! ### The max-deviation fold -/

theorem pickMax_fold_spec :
    ∀ (l : List (Edge × ℚ)) (acc : Option Edge × ℚ),
    (l.foldl (fun acc2 p => if p.2 > acc2.2 then (some p.1, p.2) else acc2) acc = acc ∧
      ∀ p ∈ l, p.2 ≤ acc.2) ∨
    (∃ e d l1 l2,
      l.foldl (fun acc2 p => if p.2 > acc2.2 then (some p.1, p.2) else acc2) acc = (some e, d) ∧
      l = l1 ++ (e, d) :: l2 ∧ acc.2 < d ∧
      (∀ p ∈ l1, p.2 < d) ∧ (∀ p ∈ l2, p.2 ≤ d)) := by
  intro l
  induction l with
  | nil => intro acc; exact Or.inl ⟨rfl, by simp⟩
  | cons p t ih =>
    intro acc
    simp only [List.foldl_cons]
    by_cases hc : p.2 > acc.2
    · rw [if_pos hc]
      rcases ih (some p.1, p.2) with ⟨heq, hle⟩ | ⟨e, d, l1, l2, heq, hsplit, hacc, hl1, hl2⟩
      · refine Or.inr ⟨p.1, p.2, [], t, by rw [heq], by simp, hc, by simp, hle⟩
      · refine Or.inr ⟨e, d, p :: l1, l2, heq, by rw [hsplit]; simp, ?_, ?_, hl2⟩
        · exact lt_trans hc hacc
        · intro q hq
          rcases List.mem_cons.1 hq with hq | hq
          · subst hq; exact hacc
          · exact hl1 q hq
    · rw [if_neg hc]
      rcases ih acc with ⟨heq, hle⟩ | ⟨e, d, l1, l2, heq, hsplit, hacc, hl1, hl2⟩
      · refine Or.inl ⟨heq, ?_⟩
        intro q hq
        rcases List.mem_cons.1 hq with hq | hq
        · subst hq; exact not_lt.1 hc
        · exact hle q hq
      · refine Or.inr ⟨e, d, p :: l1, l2, heq, by rw [hsplit]; simp, hacc, ?_, hl2⟩
        intro q hq
        rcases List.mem_cons.1 hq with hq | hq
        · subst hq; exact lt_of_le_of_lt (not_lt.1 hc) hacc
        · exact hl1 q hq

theorem pickMax_spec {l : List (Edge × ℚ)} {e : Edge} {d : ℚ}
    (h : pickMax l = (some e, d)) :
    0 < d ∧ (e, d) ∈ l ∧ (∀ p ∈ l, p.2 ≤ d) ∧
    ∃ l1 l2, l = l1 ++ (e, d) :: l2 ∧ ∀ p ∈ l1, p.2 < d := by
  unfold pickMax at h
  rcases pickMax_fold_spec l (none, 0) with ⟨heq, _⟩ | ⟨e2, d2, l1, l2, heq, hsplit, hacc, hl1, hl2⟩
  · rw [heq] at h
    simp at h
  · rw [heq] at h
    injection h with h1 h2
    injection h1 with h1
    subst h1
    subst h2
    refine ⟨hacc, by rw [hsplit]; simp, ?_, l1, l2, hsplit, hl1⟩
    intro q hq
    rw [hsplit] at hq
    rcases List.mem_append.1 hq with hq | hq
    · exact le_of_lt (hl1 q hq)
    · rcases List.mem_cons.1 hq with hq | hq
      · subst hq; exact le_refl _
      · exact hl2 q hq

theorem pickMax_mem {l : List (Edge × ℚ)} {e : Edge} {d : ℚ}
    (h : pickMax l = (some e, d)) : (e, d) ∈ l :=
  (pickMax_spec h).2.1

/-! ### Loop-level lemmas -/

theorem cropLoop_succ_done {img : Image} {bounds : Rectangle} {tol mcp : ℚ}
    {ords : ℕ → List Edge} {n i : ℕ} {r r3 : Rectangle}
    (hs : cropStep img bounds tol mcp (ords i) r = StepRes.done r3) :
    cropLoop img bounds tol mcp ords (n + 1) i r = Except.ok r3 := by
  have hdef : cropLoop img bounds tol mcp ords (n + 1) i r
      = match cropStep img bounds tol mcp (ords i) r with
        | StepRes.done r2 => Except.ok r2
        | StepRes.failed => Except.error ()
        | StepRes.next r2 => cropLoop img bounds tol mcp ords n (i + 1) r2 := rfl
  rw [hdef, hs]

theorem cropLoop_succ_failed {img : Image} {bounds : Rectangle} {tol mcp : ℚ}
    {ords : ℕ → List Edge} {n i : ℕ} {r : Rectangle}
    (hs : cropStep img bounds tol mcp (ords i) r = StepRes.failed) :
    cropLoop img bounds tol mcp ords (n + 1) i r = Except.error () := by
  have hdef : cropLoop img bounds tol mcp ords (n + 1) i r
      = match cropStep img bounds tol mcp (ords i) r with
        | StepRes.done r2 => Except.ok r2
        | StepRes.failed => Except.error ()
        | StepRes.next r2 => cropLoop img bounds tol mcp ords n (i + 1) r2 := rfl
  rw [hdef, hs]

theorem cropLoop_succ_next {img : Image} {bounds : Rectangle} {tol mcp : ℚ}
    {ords : ℕ → List Edge} {n i : ℕ} {r r3 : Rectangle}
    (hs : cropStep img bounds tol mcp (ords i) r = StepRes.next r3) :
    cropLoop img bounds tol mcp ords (n + 1) i r
      = cropLoop img bounds tol mcp ords n (i + 1) r3 := by
  have hdef : cropLoop img bounds tol mcp ords (n + 1) i r
      = match cropStep img bounds tol mcp (ords i) r with
        | StepRes.done r2 => Except.ok r2
        | StepRes.failed => Except.error ()
        | StepRes.next r2 => cropLoop img bounds tol mcp ords n (i + 1) r2 := rfl
  rw [hdef, hs]

theorem cropTrace_succ_done {img : Image} {bounds : Rectangle} {tol mcp : ℚ}
    {ords : ℕ → List Edge} {n i : ℕ} {r r3 : Rectangle}
    (hs : cropStep img bounds tol mcp (ords i) r = StepRes.done r3) :
    cropTrace img bounds tol mcp ords (n + 1) i r = [(i, r)] := by
  have hdef : cropTrace img bounds tol mcp ords (n + 1) i r
      = (i, r) :: (match cropStep img bounds tol mcp (ords i) r with
        | StepRes.next r2 => cropTrace img bounds tol mcp ords n (i + 1) r2
        | _ => []) := rfl
  rw [hdef, hs]

theorem cropTrace_succ_failed {img : Image} {bounds : Rectangle} {tol mcp : ℚ}
    {ords : ℕ → List Edge} {n i : ℕ} {r : Rectangle}
    (hs : cropStep img bounds tol mcp (ords i) r = StepRes.failed) :
    cropTrace img bounds tol mcp ords (n + 1) i r = [(i, r)] := by
  have hdef : cropTrace img bounds tol mcp ords (n + 1) i r
      = (i, r) :: (match cropStep img bounds tol mcp (ords i) r with
        | StepRes.next r2 => cropTrace img bounds tol mcp ords n (i + 1) r2
        | _ => []) := rfl
  rw [hdef, hs]

theorem cropTrace_succ_next {img : Image} {bounds : Rectangle} {tol mcp : ℚ}
    {ords : ℕ → List Edge} {n i : ℕ} {r r3 : Rectangle}
    (hs : cropStep img bounds tol mcp (ords i) r = StepRes.next r3) :
    cropTrace img bounds tol mcp ords (n + 1) i r
      = (i, r) :: cropTrace img bounds tol mcp ords n (i + 1) r3 := by
  have hdef : cropTrace img bounds tol mcp ords (n + 1) i r
      = (i, r) :: (match cropStep img bounds tol mcp (ords i) r with
        | StepRes.next r2 => cropTrace img bounds tol mcp ords n (i + 1) r2
        | _ => []) := rfl
  rw [hdef, hs]

theorem cropLoop_inv (img : Image) (bounds : Rectangle) (tol mcp : ℚ)
    (ords : ℕ → List Edge) (P : Rectangle → Prop)
    (hnext : ∀ ord r r2, P r → cropStep img bounds tol mcp ord r = StepRes.next r2 → P r2) :
    ∀ fuel i r r2, P r →
      cropLoop img bounds tol mcp ords fuel i r = Except.ok r2 → P r2 := by
  intro fuel
  induction fuel with
  | zero =>
    intro i r r2 hP h
    have hdef : cropLoop img bounds tol mcp ords 0 i r = Except.ok r := rfl
    rw [hdef] at h
    injection h with h
    exact h ▸ hP
  | succ n ih =>
    intro i r r2 hP h
    cases hs : cropStep img bounds tol mcp (ords i) r with
    | done r3 =>
      rw [cropLoop_succ_done hs] at h
      injection h with h
      have hr3 := cropStep_done_eq hs
      subst hr3
      exact h ▸ hP
    | failed =>
      rw [cropLoop_succ_failed hs] at h
      simp at h
    | next r3 =>
      rw [cropLoop_succ_next hs] at h
      exact ih (i + 1) r3 r2 (hnext _ _ _ hP hs) h

theorem cropLoop_error_iff (img : Image) (bounds : Rectangle) (tol mcp : ℚ)
    (ords : ℕ → List Edge) :
    ∀ fuel i r, (cropLoop img bounds tol mcp ords fuel i r = Except.error ()) ↔
      ∃ p ∈ cropTrace img bounds tol mcp ords fuel i r,
        cropStep img bounds tol mcp (ords p.1) p.2 = StepRes.failed := by
  intro fuel
  induction fuel with
  | zero =>
    intro i r
    have hdefl : cropLoop img bounds tol mcp ords 0 i r = Except.ok r := rfl
    have hdeft : cropTrace img bounds tol mcp ords 0 i r = [] := rfl
    rw [hdefl, hdeft]
    simp
  | succ n ih =>
    intro i r
    cases hs : cropStep img bounds tol mcp (ords i) r with
    | done r3 =>
      rw [cropLoop_succ_done hs, cropTrace_succ_done hs]
      simp [hs]
    | failed =>
      rw [cropLoop_succ_failed hs, cropTrace_succ_failed hs]
      simp [hs]
    | next r3 =>
      rw [cropLoop_succ_next hs, cropTrace_succ_next hs, ih (i + 1) r3]
      constructor
      · rintro ⟨p, hp, hf⟩
        exact ⟨p, List.mem_cons_of_mem _ hp, hf⟩
      · rintro ⟨p, hp, hf⟩
        rcases List.mem_cons.1 hp with hp | hp
        · subst hp
          rw [hs] at hf
          simp at hf
        · exact ⟨p, hp, hf⟩

theorem cropLoopSteps_le (img : Image) (bounds : Rectangle) (tol mcp : ℚ)
    (ords : ℕ → List Edge) :
    ∀ fuel i r, cropLoopSteps img bounds tol mcp ords fuel i r ≤ fuel := by
  intro fuel
  induction fuel with
  | zero =>
    intro i r
    have hdef : cropLoopSteps img bounds tol mcp ords 0 i r = 0 := rfl
    omega
  | succ n ih =>
    intro i r
    have hdef : cropLoopSteps img bounds tol mcp ords (n + 1) i r
        = match cropStep img bounds tol mcp (ords i) r with
          | StepRes.next r2 => 1 + cropLoopSteps img bounds tol mcp ords n (i + 1) r2
          | _ => 1 := rfl
    cases hs : cropStep img bounds tol mcp (ords i) r with
    | done r3 =>
      rw [hdef, hs]
      show 1 ≤ n + 1
      omega
    | failed =>
      rw [hdef, hs]
      show 1 ≤ n + 1
      omega
    | next r3 =>
      rw [hdef, hs]
      show 1 + cropLoopSteps img bounds tol mcp ords n (i + 1) r3 ≤ n + 1
      have := ih (i + 1) r3
      omega

theorem maxIterations_eq (w h : ℤ) :
    maxIterations w h = max 100 (Int.tdiv (max w h) 2) := by
  unfold maxIterations
  split <;> omega

theorem maxIterations_pos (w h : ℤ) : 0 < (maxIterations w h).toNat := by
  unfold maxIterations
  split <;> omega

/-! ### Membership in the per-iteration edge map -/

theorem mem_edgeLookup {l : List (Edge × ℚ)} {e : Edge} {d : ℚ}
    (h : edgeLookup l e = some d) : (e, d) ∈ l := by
  induction l with
  | nil => simp [edgeLookup] at h
  | cons p t ih =>
    simp only [edgeLookup] at h
    split at h
    · rename_i hpe
      injection h with h
      rw [List.mem_cons]
      left
      rw [← hpe, ← h]
    · exact List.mem_cons_of_mem _ (ih h)

theorem mem_iterOrder {ord : List Edge} {l : List (Edge × ℚ)} {p : Edge × ℚ}
    (h : p ∈ iterOrder ord l) : p ∈ l := by
  unfold iterOrder at h
  obtain ⟨e, he, heq⟩ := List.mem_filterMap.1 h
  cases hl : edgeLookup l e with
  | none => rw [hl] at heq; simp at heq
  | some d =>
    rw [hl] at heq
    simp only [Option.map_some'] at heq
    injection heq with heq
    exact heq ▸ mem_edgeLookup hl

theorem scanEdges_mem_cases {img : Image} {bounds : Rectangle} {mcp : ℚ}
    {r : Rectangle} {cb : ℚ} {e : Edge} {d : ℚ}
    (h : (e, d) ∈ scanEdges img bounds mcp r cb) :
    ((e = Edge.top ∨ e = Edge.bottom) ∧ bounds.dy - r.dy < maxCropOf bounds.dy mcp) ∨
    ((e = Edge.left ∨ e = Edge.right) ∧ bounds.dx - r.dx < maxCropOf bounds.dx mcp) := by
  simp only [scanEdges, List.mem_append] at h
  rcases h with ((h | h) | h) | h
  · revert h
    split
    · rename_i hc
      intro h
      simp only [List.mem_singleton] at h
      injection h with h1 h2
      exact Or.inl ⟨Or.inl h1, hc⟩
    · intro h
      simp at h
  · revert h
    split
    · rename_i hc
      intro h
      simp only [List.mem_singleton] at h
      injection h with h1 h2
      exact Or.inl ⟨Or.inr h1, hc⟩
    · intro h
      simp at h
  · revert h
    split
    · rename_i hc
      intro h
      simp only [List.mem_singleton] at h
      injection h with h1 h2
      exact Or.inr ⟨Or.inl h1, hc⟩
    · intro h
      simp at h
  · revert h
    split
    · rename_i hc
      intro h
      simp only [List.mem_singleton] at h
      injection h with h1 h2
      exact Or.inr ⟨Or.inr h1, hc⟩
    · intro h
      simp at h

theorem stepPick_eq_pickMax (img : Image) (bounds : Rectangle) (mcp : ℚ)
    (ord : List Edge) (r : Rectangle) :
    stepPick img bounds mcp ord r
      = pickMax (iterOrder ord (scanEdges img bounds mcp r
          (calculateRegionBrightness img (centerRectOf r)))) := rfl

theorem stepPick_not_lr_at_ceiling (img : Image) (bounds : Rectangle) (mcp : ℚ)
    (ord : List Edge) (r : Rectangle)
    (hceil : maxCropOf bounds.dx mcp ≤ bounds.dx - r.dx) :
    (stepPick img bounds mcp ord r).1 ≠ some Edge.left ∧
    (stepPick img bounds mcp ord r).1 ≠ some Edge.right := by
  have key : ∀ e : Edge, (e = Edge.left ∨ e = Edge.right) →
      (stepPick img bounds mcp ord r).1 ≠ some e := by
    intro e he hcontra
    have hpm : pickMax (iterOrder ord (scanEdges img bounds mcp r
        (calculateRegionBrightness img (centerRectOf r))))
        = (some e, (stepPick img bounds mcp ord r).2) := by
      rw [← stepPick_eq_pickMax, ← hcontra]
    have hmem := mem_iterOrder (pickMax_mem hpm)
    rcases scanEdges_mem_cases hmem with ⟨htb, _⟩ | ⟨_, hlt⟩
    · rcases he with rfl | rfl <;> rcases htb with h2 | h2 <;> cases h2
    · omega
  exact ⟨key Edge.left (Or.inl rfl), key Edge.right (Or.inr rfl)⟩

theorem stepPick_not_tb_at_ceiling (img : Image) (bounds : Rectangle) (mcp : ℚ)
    (ord : List Edge) (r : Rectangle)
    (hceil : maxCropOf bounds.dy mcp ≤ bounds.dy - r.dy) :
    (stepPick img bounds mcp ord r).1 ≠ some Edge.top ∧
    (stepPick img bounds mcp ord r).1 ≠ some Edge.bottom := by
  have key : ∀ e : Edge, (e = Edge.top ∨ e = Edge.bottom) →
      (stepPick img bounds mcp ord r).1 ≠ some e := by
    intro e he hcontra
    have hpm : pickMax (iterOrder ord (scanEdges img bounds mcp r
        (calculateRegionBrightness img (centerRectOf r))))
        = (some e, (stepPick img bounds mcp ord r).2) := by
      rw [← stepPick_eq_pickMax, ← hcontra]
    have hmem := mem_iterOrder (pickMax_mem hpm)
    rcases scanEdges_mem_cases hmem with ⟨_, hlt⟩ | ⟨hlr, _⟩
    · omega
    · rcases he with rfl | rfl <;> rcases hlr with h2 | h2 <;> cases h2
  exact ⟨key Edge.top (Or.inl rfl), key Edge.bottom (Or.inr rfl)⟩

theorem maxCropOf_nonneg {d : ℤ} {mcp : ℚ} (hd : 0 ≤ d) (hmcp : 0 ≤ mcp) :
    0 ≤ maxCropOf d mcp := by
  unfold maxCropOf
  have hdq : (0:ℚ) ≤ (d:ℚ) := by exact_mod_cast hd
  have hq : (0:ℚ) ≤ (d:ℚ) * mcp / 100 := by
    apply div_nonneg (mul_nonneg hdq hmcp)
    norm_num
  rw [ratTrunc_eq_floor hq]
  exact Int.floor_nonneg.2 hq

/-- Claim C9: whenever `findUniformCrop` returns a rectangle without error, on
bounds of positive width and height, the rectangle lies within the bounds and
has positive width and height. -/
theorem c9_result_within_bounds (img : Image) (bounds : Rectangle) (tol mcp : ℚ)
    (ords : ℕ → List Edge) (r : Rectangle)
    (hw : 0 < bounds.dx) (hh : 0 < bounds.dy)
    (hok : findUniformCrop img bounds tol mcp ords = Except.ok r) :
    bounds.minX ≤ r.minX ∧ r.maxX ≤ bounds.maxX ∧
    bounds.minY ≤ r.minY ∧ r.maxY ≤ bounds.maxY ∧ 0 < r.dx ∧ 0 < r.dy := by
  unfold findUniformCrop at hok
  refine cropLoop_inv img bounds tol mcp ords
    (fun r2 => bounds.minX ≤ r2.minX ∧ r2.maxX ≤ bounds.maxX ∧
      bounds.minY ≤ r2.minY ∧ r2.maxY ≤ bounds.maxY ∧ 0 < r2.dx ∧ 0 < r2.dy)
    ?_ _ 0 bounds r ⟨le_refl _, le_refl _, le_refl _, le_refl _, hw, hh⟩ hok
  intro ord r0 r2 hP hs
  obtain ⟨hshr, hdx2, hdy2, _⟩ := cropStep_next_spec hs
  subst hshr
  have hwithin := applyCrop_within (stepPick img bounds mcp ord r0).1 r0
    (cropAmount r0.dx r0.dy) (by have := cropAmount_pos r0.dx r0.dy; omega)
  unfold stepShrunk at hdx2 hdy2 ⊢
  exact ⟨le_trans hP.1 hwithin.1, le_trans hwithin.2.1 hP.2.1,
    le_trans hP.2.2.1 hwithin.2.2.1, le_trans hwithin.2.2.2 hP.2.2.2.1, hdx2, hdy2⟩

theorem c9_result_within_bounds_witness :
    0 < squareBounds.dx ∧ 0 < squareBounds.dy ∧
    findUniformCrop flatImg squareBounds 15 30 prioOrders = Except.ok squareBounds ∧
    (squareBounds.minX ≤ squareBounds.minX ∧ squareBounds.maxX ≤ squareBounds.maxX ∧
     squareBounds.minY ≤ squareBounds.minY ∧ squareBounds.maxY ≤ squareBounds.maxY ∧
     0 < squareBounds.dx ∧ 0 < squareBounds.dy) := by
  have hok : findUniformCrop flatImg squareBounds 15 30 prioOrders = Except.ok squareBounds := by
    with_unfolding_all rfl
  exact ⟨by decide, by decide, hok,
    c9_result_within_bounds flatImg squareBounds 15 30 prioOrders squareBounds
      (by decide) (by decide) hok⟩

/-- Claim C2: the crop search never removes more than the per-dimension crop
ceiling `int(dimension * maxCropPercent / 100)` plus one shrink step
`cropAmount` (evaluated at the original bounds, an upper bound of every
per-iteration step); and an edge whose dimension has reached its ceiling is
never chosen for cropping, under any map iteration order. -/
theorem c2_crop_ceiling_bound (img : Image) (bounds : Rectangle) (tol mcp : ℚ)
    (ords : ℕ → List Edge) (r : Rectangle)
    (hw : 0 < bounds.dx) (hh : 0 < bounds.dy) (hmcp : 0 ≤ mcp)
    (hok : findUniformCrop img bounds tol mcp ords = Except.ok r) :
    (bounds.dx - r.dx ≤ maxCropOf bounds.dx mcp + cropAmount bounds.dx bounds.dy ∧
     bounds.dy - r.dy ≤ maxCropOf bounds.dy mcp + cropAmount bounds.dx bounds.dy) ∧
    (∀ ord r2, maxCropOf bounds.dx mcp ≤ bounds.dx - r2.dx →
      (stepPick img bounds mcp ord r2).1 ≠ some Edge.left ∧
      (stepPick img bounds mcp ord r2).1 ≠ some Edge.right) ∧
    (∀ ord r2, maxCropOf bounds.dy mcp ≤ bounds.dy - r2.dy →
      (stepPick img bounds mcp ord r2).1 ≠ some Edge.top ∧
      (stepPick img bounds mcp ord r2).1 ≠ some Edge.bottom) := by
  refine ⟨?_, fun ord r2 hceil => stepPick_not_lr_at_ceiling img bounds mcp ord r2 hceil,
    fun ord r2 hceil => stepPick_not_tb_at_ceiling img bounds mcp ord r2 hceil⟩
  have hmaxW : 0 ≤ maxCropOf bounds.dx mcp := maxCropOf_nonneg (by omega) hmcp
  have hmaxH : 0 ≤ maxCropOf bounds.dy mcp := maxCropOf_nonneg (by omega) hmcp
  have hamtUB1 := cropAmount_pos bounds.dx bounds.dy
  unfold findUniformCrop at hok
  have hinv := cropLoop_inv img bounds tol mcp ords
    (fun r2 => 0 < r2.dx ∧ 0 < r2.dy ∧ r2.dx ≤ bounds.dx ∧ r2.dy ≤ bounds.dy ∧
      bounds.dx - r2.dx ≤ max 0 (maxCropOf bounds.dx mcp - 1 + cropAmount bounds.dx bounds.dy) ∧
      bounds.dy - r2.dy ≤ max 0 (maxCropOf bounds.dy mcp - 1 + cropAmount bounds.dx bounds.dy))
    ?_ _ 0 bounds r ⟨hw, hh, le_refl _, le_refl _, by omega, by omega⟩ hok
  · omega
  · intro ord r0 r2 hP hs
    obtain ⟨hshr, hdx2, hdy2, _⟩ := cropStep_next_spec hs
    subst hshr
    rcases hpick : stepPick img bounds mcp ord r0 with ⟨oe, dev⟩
    have hshr2 : stepShrunk img bounds mcp ord r0
        = applyCrop oe r0 (cropAmount r0.dx r0.dy) := by
      unfold stepShrunk
      rw [hpick]
    rw [hshr2] at hdx2 hdy2 ⊢
    have hamt1 := cropAmount_pos r0.dx r0.dy
    have hamtUB : cropAmount r0.dx r0.dy ≤ cropAmount bounds.dx bounds.dy :=
      cropAmount_mono (by omega) (by omega) hP.2.2.1 hP.2.2.2.1
    have hpm : pickMax (iterOrder ord (scanEdges img bounds mcp r0
        (calculateRegionBrightness img (centerRectOf r0)))) = (oe, dev) := by
      rw [← stepPick_eq_pickMax, hpick]
    rcases applyCrop_split oe r0 (cropAmount r0.dx r0.dy) with
      ⟨heq, _⟩ | ⟨hor, hdx3, hdy3⟩ | ⟨hor, hdx3, hdy3⟩
    · rw [heq]
      exact hP
    · have hlt : bounds.dx - r0.dx < maxCropOf bounds.dx mcp := by
        rcases hor with rfl | rfl
        · rcases scanEdges_mem_cases (mem_iterOrder (pickMax_mem hpm)) with
            ⟨htb, _⟩ | ⟨_, hccw⟩
          · rcases htb with h2 | h2 <;> cases h2
          · exact hccw
        · rcases scanEdges_mem_cases (mem_iterOrder (pickMax_mem hpm)) with
            ⟨htb, _⟩ | ⟨_, hccw⟩
          · rcases htb with h2 | h2 <;> cases h2
          · exact hccw
      refine ⟨hdx2, hdy2, by omega, by omega, by omega, by omega⟩
    · have hlt : bounds.dy - r0.dy < maxCropOf bounds.dy mcp := by
        rcases hor with rfl | rfl
        · rcases scanEdges_mem_cases (mem_iterOrder (pickMax_mem hpm)) with
            ⟨_, hcch⟩ | ⟨hlr, _⟩
          · exact hcch
          · rcases hlr with h2 | h2 <;> cases h2
        · rcases scanEdges_mem_cases (mem_iterOrder (pickMax_mem hpm)) with
            ⟨_, hcch⟩ | ⟨hlr, _⟩
          · exact hcch
          · rcases hlr with h2 | h2 <;> cases h2
      refine ⟨hdx2, hdy2, by omega, by omega, by omega, by omega⟩

theorem c2_crop_ceiling_bound_witness :
    0 < squareBounds.dx ∧ 0 < squareBounds.dy ∧ (0:ℚ) ≤ 30 ∧
    findUniformCrop flatImg squareBounds 15 30 prioOrders = Except.ok squareBounds ∧
    ((squareBounds.dx - squareBounds.dx
        ≤ maxCropOf squareBounds.dx 30 + cropAmount squareBounds.dx squareBounds.dy ∧
      squareBounds.dy - squareBounds.dy
        ≤ maxCropOf squareBounds.dy 30 + cropAmount squareBounds.dx squareBounds.dy) ∧
     (∀ ord r2, maxCropOf squareBounds.dx 30 ≤ squareBounds.dx - r2.dx →
       (stepPick flatImg squareBounds 30 ord r2).1 ≠ some Edge.left ∧
       (stepPick flatImg squareBounds 30 ord r2).1 ≠ some Edge.right) ∧
     (∀ ord r2, maxCropOf squareBounds.dy 30 ≤ squareBounds.dy - r2.dy →
       (stepPick flatImg squareBounds 30 ord r2).1 ≠ some Edge.top ∧
       (stepPick flatImg squareBounds 30 ord r2).1 ≠ some Edge.bottom)) := by
  have hok : findUniformCrop flatImg squareBounds 15 30 prioOrders = Except.ok squareBounds := by
    with_unfolding_all rfl
  exact ⟨by decide, by decide, by norm_num, hok,
    c2_crop_ceiling_bound flatImg squareBounds 15 30 prioOrders squareBounds
      (by decide) (by decide) (by norm_num) hok⟩

/-- Claim C6: `findUniformCrop` terminates (it is a total function of its
fuel), and the number of loop-body executions is bounded by
`max(100, max(width, height) / 2)`, the cap computed at cropper.go:224-227. -/
theorem c6_iteration_bound (img : Image) (bounds : Rectangle) (tol mcp : ℚ)
    (ords : ℕ → List Edge) (hw : 0 < bounds.dx) (hh : 0 < bounds.dy) :
    findUniformCropSteps img bounds tol mcp ords
      ≤ (max 100 (Int.tdiv (max bounds.dx bounds.dy) 2)).toNat ∧
    maxIterations bounds.dx bounds.dy = max 100 (Int.tdiv (max bounds.dx bounds.dy) 2) := by
  constructor
  · unfold findUniformCropSteps
    rw [← maxIterations_eq bounds.dx bounds.dy]
    exact cropLoopSteps_le img bounds tol mcp ords _ 0 bounds
  · exact maxIterations_eq _ _

theorem c6_iteration_bound_witness :
    0 < squareBounds.dx ∧ 0 < squareBounds.dy ∧
    (findUniformCropSteps flatImg squareBounds 15 30 prioOrders
      ≤ (max 100 (Int.tdiv (max squareBounds.dx squareBounds.dy) 2)).toNat ∧
     maxIterations squareBounds.dx squareBounds.dy
      = max 100 (Int.tdiv (max squareBounds.dx squareBounds.dy) 2)) :=
  ⟨by decide, by decide,
    c6_iteration_bound flatImg squareBounds 15 30 prioOrders (by decide) (by decide)⟩

/-- Claim C4: `findUniformCrop` returns an error exactly when some visited
loop state attempts a shrink whose result has zero or negative width or
height; a failing step is precisely a degenerate shrink, and a continuing
step always carries a rectangle of positive width and height (never a
silently clamped degenerate one). -/
theorem c4_error_iff_collapse (img : Image) (bounds : Rectangle) (tol mcp : ℚ)
    (ords : ℕ → List Edge) :
    ((findUniformCrop img bounds tol mcp ords = Except.error ()) ↔
      ∃ p ∈ cropTrace img bounds tol mcp ords
          (maxIterations bounds.dx bounds.dy).toNat 0 bounds,
        cropStep img bounds tol mcp (ords p.1) p.2 = StepRes.failed) ∧
    (∀ ord r, cropStep img bounds tol mcp ord r = StepRes.failed →
      (stepShrunk img bounds mcp ord r).dx ≤ 0 ∨ (stepShrunk img bounds mcp ord r).dy ≤ 0) ∧
    (∀ ord r r2, cropStep img bounds tol mcp ord r = StepRes.next r2 →
      0 < r2.dx ∧ 0 < r2.dy) := by
  refine ⟨?_, fun ord r hf => cropStep_failed_spec hf,
    fun ord r r2 hs => ⟨(cropStep_next_spec hs).2.1, (cropStep_next_spec hs).2.2.1⟩⟩
  unfold findUniformCrop
  exact cropLoop_error_iff img bounds tol mcp ords _ 0 bounds

theorem c4_error_iff_collapse_witness :
    ((findUniformCrop flatImg squareBounds 15 30 prioOrders = Except.error ()) ↔
      ∃ p ∈ cropTrace flatImg squareBounds 15 30 prioOrders
          (maxIterations squareBounds.dx squareBounds.dy).toNat 0 squareBounds,
        cropStep flatImg squareBounds 15 30 (prioOrders p.1) p.2 = StepRes.failed) :=
  (c4_error_iff_collapse flatImg squareBounds 15 30 prioOrders).1

theorem c8_corner_crop_tl_witness :
    (0:ℤ) < 10 ∧ (0:ℚ) < 25 ∧ (25:ℚ) < 100 ∧
    ((cornerCropRect Corner.tl 10 10 25).dx = 10 - Int.floor (((10 : ℤ) : ℚ) * 25 / 100) ∧
     (cornerCropRect Corner.tl 10 10 25).dy = 10 - Int.floor (((10 : ℤ) : ℚ) * 25 / 100) ∧
     materializedPixel flatImg (cornerCropRect Corner.tl 10 10 25) 0 0
       = flatImg (Int.floor (((10 : ℤ) : ℚ) * 25 / 100) + 0) (Int.floor (((10 : ℤ) : ℚ) * 25 / 100) + 0)) :=
  ⟨by decide, by norm_num, by norm_num,
    c8_corner_crop_tl flatImg 10 10 0 0 25 (by decide) (by decide) (by norm_num) (by norm_num)⟩

/-! ### Counterexample inputs for claims C1 and C3 -/

/-- A 60×60 image with a uniformly white 1-pixel border (brightness 255)
around a uniformly dark interior (brightness 1). -/
def thinBorderImg : Image := fun x y =>
  if x = 0 ∨ y = 0 ∨ x = 59 ∨ y = 59 then whiteColor else darkColor

/-- Bounds of `thinBorderImg`. -/
def thinBorderBounds : Rectangle := ⟨0, 0, 60, 60⟩

/-- A 10×10 image whose first and last rows are black and whose interior is
white: the top and bottom edges tie exactly in deviation. -/
def stripeImg : Image := fun _ y =>
  if y = 0 ∨ y = 9 then blackColor else whiteColor

/-- Bounds of `stripeImg`. -/
def stripeBounds : Rectangle := ⟨0, 0, 10, 10⟩

/-- A legal Go map iteration order that visits bottom before top. -/
def swappedOrder : List Edge := [Edge.bottom, Edge.top, Edge.left, Edge.right]

set_option maxRecDepth 200000

/-- Claim C1 is false as stated: `thinBorderImg` has a uniformly colored
border whose brightness deviates from the uniformly colored center by
25400% — more than five times the tolerance 5000 — yet the full-bounds
`isUniform` test accepts it (the 1-pixel border averages away inside the 10%
edge bands), so `findUniformCrop` returns the original 60×60 bounds: not a
rectangle strictly smaller than the bounds, with no crop budget consumed
(the width ceiling alone is 18 pixels). -/
theorem c1_counterexample :
    goRelGT |calculateBrightness whiteColor - calculateBrightness darkColor|
      (calculateBrightness darkColor) 5000 = true ∧
    (0:ℤ) < maxCropOf thinBorderBounds.dx 30 ∧
    isUniform thinBorderImg thinBorderBounds 5000 = true ∧
    findUniformCrop thinBorderImg thinBorderBounds 5000 30 prioOrders
      = Except.ok thinBorderBounds ∧
    ¬(thinBorderBounds.dx < thinBorderBounds.dx ∨
      thinBorderBounds.dy < thinBorderBounds.dy) := by
  refine ⟨by with_unfolding_all decide, by with_unfolding_all decide,
    by with_unfolding_all decide, by with_unfolding_all rfl, by simp⟩

/-- Claim C1 (amended): when the full bounds already pass the uniformity
evaluator — which happens even for a border far outside tolerance if it is
thin enough to average away inside the 10% bands — `findUniformCrop` returns
the original bounds unchanged; and when the bounds are initially non-uniform,
every rectangle it returns without error on which `isUniform` holds is
strictly smaller than the original bounds. -/
theorem c1_uniform_fixed_point_amended (img : Image) (bounds : Rectangle)
    (tol mcp : ℚ) (ords : ℕ → List Edge) :
    (isUniform img bounds tol = true →
      findUniformCrop img bounds tol mcp ords = Except.ok bounds) ∧
    (isUniform img bounds tol = false →
      ∀ r, findUniformCrop img bounds tol mcp ords = Except.ok r →
        isUniform img r tol = true → r.dx < bounds.dx ∨ r.dy < bounds.dy) := by
  constructor
  · intro hu
    unfold findUniformCrop
    obtain ⟨n, hn⟩ : ∃ n, (maxIterations bounds.dx bounds.dy).toNat = n + 1 := by
      have := maxIterations_pos bounds.dx bounds.dy
      exact ⟨(maxIterations bounds.dx bounds.dy).toNat - 1, by omega⟩
    rw [hn]
    exact cropLoop_succ_done (cropStep_uniform_done hu)
  · intro hnu r hok hru
    unfold findUniformCrop at hok
    have hinv := cropLoop_inv img bounds tol mcp ords
      (fun r2 => r2.dx ≤ bounds.dx ∧ r2.dy ≤ bounds.dy ∧
        (isUniform img r2 tol = false ∨ r2.dx < bounds.dx ∨ r2.dy < bounds.dy))
      ?_ _ 0 bounds r ⟨le_refl _, le_refl _, Or.inl hnu⟩ hok
    · rcases hinv.2.2 with hfalse | hsm
      · rw [hru] at hfalse
        cases hfalse
      · exact hsm
    · intro ord r0 r2 hP hs
      obtain ⟨hP1, hP2, hP3⟩ := hP
      obtain ⟨hshr, hdx2, hdy2, _⟩ := cropStep_next_spec hs
      subst hshr
      rcases hpick : stepPick img bounds mcp ord r0 with ⟨oe, dev⟩
      have hshr2 : stepShrunk img bounds mcp ord r0
          = applyCrop oe r0 (cropAmount r0.dx r0.dy) := by
        unfold stepShrunk
        rw [hpick]
      rw [hshr2] at hdx2 hdy2 ⊢
      have hamt1 := cropAmount_pos r0.dx r0.dy
      rcases applyCrop_split oe r0 (cropAmount r0.dx r0.dy) with
        ⟨heq, _⟩ | ⟨_, hdx3, hdy3⟩ | ⟨_, hdx3, hdy3⟩
      · rw [heq]
        exact ⟨hP1, hP2, hP3⟩
      · exact ⟨by omega, by omega, Or.inr (Or.inl (by omega))⟩
      · exact ⟨by omega, by omega, Or.inr (Or.inr (by omega))⟩

theorem c1_uniform_fixed_point_amended_witness :
    (isUniform flatImg squareBounds 15 = true ∧
     findUniformCrop flatImg squareBounds 15 30 prioOrders = Except.ok squareBounds) ∧
    (isUniform stripeImg stripeBounds 10 = false ∧
     findUniformCrop stripeImg stripeBounds 10 30 prioOrders = Except.ok ⟨0, 1, 10, 9⟩ ∧
     isUniform stripeImg ⟨0, 1, 10, 9⟩ 10 = true ∧
     (Rectangle.dx ⟨0, 1, 10, 9⟩ < stripeBounds.dx ∨
      Rectangle.dy ⟨0, 1, 10, 9⟩ < stripeBounds.dy)) := by
  have h1 : isUniform flatImg squareBounds 15 = true := by with_unfolding_all decide
  have h2 : isUniform stripeImg stripeBounds 10 = false := by with_unfolding_all decide
  have h3 : findUniformCrop stripeImg stripeBounds 10 30 prioOrders
      = Except.ok ⟨0, 1, 10, 9⟩ := by with_unfolding_all rfl
  have h4 : isUniform stripeImg ⟨0, 1, 10, 9⟩ 10 = true := by with_unfolding_all decide
  exact ⟨⟨h1, (c1_uniform_fixed_point_amended flatImg squareBounds 15 30 prioOrders).1 h1⟩,
    h2, h3, h4,
    (c1_uniform_fixed_point_amended stripeImg stripeBounds 10 30 prioOrders).2
      h2 ⟨0, 1, 10, 9⟩ h3 h4⟩

/-- Claim C3 is false as stated: on `stripeImg` the top and bottom edges tie
at the maximal deviation 255, yet under the legal map iteration order
`swappedOrder` (bottom visited before top, which a Go `range` over the map
may produce) the fold chooses bottom, not the claimed fixed-priority top, and
the loop body crops the bottom edge. -/
theorem c3_counterexample :
    List.Perm swappedOrder [Edge.top, Edge.bottom, Edge.left, Edge.right] ∧
    edgeLookup (scanEdges stripeImg stripeBounds 30 stripeBounds
      (calculateRegionBrightness stripeImg (centerRectOf stripeBounds))) Edge.top
      = some 255 ∧
    edgeLookup (scanEdges stripeImg stripeBounds 30 stripeBounds
      (calculateRegionBrightness stripeImg (centerRectOf stripeBounds))) Edge.bottom
      = some 255 ∧
    stepPick stripeImg stripeBounds 30 swappedOrder stripeBounds
      = (some Edge.bottom, 255) ∧
    cropStep stripeImg stripeBounds 10 30 swappedOrder stripeBounds
      = StepRes.next ⟨0, 0, 10, 9⟩ ∧
    Edge.bottom ≠ Edge.top := by
  refine ⟨by decide, by with_unfolding_all decide, by with_unfolding_all decide,
    by with_unfolding_all decide, by with_unfolding_all decide, by decide⟩

/-- Claim C3 (amended): the edge chosen by one iteration of the search is the
first edge in the map iteration order whose deviation attains the positive
maximum: the strict `>` fold keeps the earliest maximum of the order actually
iterated, and Go does not fix that order to top, bottom, left, right. -/
theorem c3_first_argmax_in_order (img : Image) (bounds : Rectangle) (mcp : ℚ)
    (ord : List Edge) (r : Rectangle) (e : Edge) (d : ℚ)
    (h : stepPick img bounds mcp ord r = (some e, d)) :
    0 < d ∧
    (e, d) ∈ iterOrder ord (scanEdges img bounds mcp r
      (calculateRegionBrightness img (centerRectOf r))) ∧
    (∀ p ∈ iterOrder ord (scanEdges img bounds mcp r
      (calculateRegionBrightness img (centerRectOf r))), p.2 ≤ d) ∧
    ∃ l1 l2, iterOrder ord (scanEdges img bounds mcp r
      (calculateRegionBrightness img (centerRectOf r))) = l1 ++ (e, d) :: l2 ∧
      ∀ p ∈ l1, p.2 < d := by
  rw [stepPick_eq_pickMax] at h
  exact pickMax_spec h

theorem c3_first_argmax_in_order_witness :
    stepPick stripeImg stripeBounds 30 swappedOrder stripeBounds
      = (some Edge.bottom, 255) ∧
    (0 < (255:ℚ) ∧
     (Edge.bottom, (255:ℚ)) ∈ iterOrder swappedOrder (scanEdges stripeImg stripeBounds 30
       stripeBounds (calculateRegionBrightness stripeImg (centerRectOf stripeBounds))) ∧
     (∀ p ∈ iterOrder swappedOrder (scanEdges stripeImg stripeBounds 30 stripeBounds
       (calculateRegionBrightness stripeImg (centerRectOf stripeBounds))), p.2 ≤ 255) ∧
     ∃ l1 l2, iterOrder swappedOrder (scanEdges stripeImg stripeBounds 30 stripeBounds
       (calculateRegionBrightness stripeImg (centerRectOf stripeBounds)))
         = l1 ++ (Edge.bottom, (255:ℚ)) :: l2 ∧
       ∀ p ∈ l1, p.2 < 255) := by
  have h : stepPick stripeImg stripeBounds 30 swappedOrder stripeBounds
      = (some Edge.bottom, 255) := by with_unfolding_all decide
  exact ⟨h, c3_first_argmax_in_order stripeImg stripeBounds 30 swappedOrder
    stripeBounds Edge.bottom 255 h⟩

end ImageCrop
